import Mathlib

/-!
Verification development for the RavenNews feed-ingestion pipeline.

The Rust sources are embedded shallowly:
* machine integers become `Nat` with explicit `% 2 ^ 32` where overflow matters,
* fallible code returns `Except` / `Option`,
* the wall clock (`Utc::now()`) is passed explicitly as an `Int` of Unix seconds,
* the streaming XML reader (`quick_xml`) is modelled by a token list, and
* the external crates `sha2` and `chrono` are modelled by executable Lean
  implementations of SHA-256, RFC 3339 rendering and RFC 2822 parsing.
-/

namespace RavenNews

/-! ### 32-bit words and SHA-256 (model of the `sha2` crate) -/

/-- Truncation to a 32-bit word. -/
def w32 (n : Nat) : Nat := n % 4294967296

/-- Right rotation of a 32-bit word. -/
def rotr (n x : Nat) : Nat := w32 ((x >>> n) ||| (x <<< (32 - n)))

/-- The small sigma-0 word mix of the SHA-256 message schedule. -/
def schedMix0 (x : Nat) : Nat := rotr 7 x ^^^ rotr 18 x ^^^ (x >>> 3)

/-- The small sigma-1 word mix of the SHA-256 message schedule. -/
def schedMix1 (x : Nat) : Nat := rotr 17 x ^^^ rotr 19 x ^^^ (x >>> 10)

/-- The SHA-256 round constants (FIPS 180-4), written in decimal. -/
def shaK : List Nat :=
  [1116352408, 1899447441, 3049323471, 3921009573, 961987163, 1508970993,
   2453635748, 2870763221, 3624381080, 310598401, 607225278, 1426881987,
   1925078388, 2162078206, 2614888103, 3248222580, 3835390401, 4022224774,
   264347078, 604807628, 770255983, 1249150122, 1555081692, 1996064986,
   2554220882, 2821834349, 2952996808, 3210313671, 3336571891, 3584528711,
   113926993, 338241895, 666307205, 773529912, 1294757372, 1396182291,
   1695183700, 1986661051, 2177026350, 2456956037, 2730485921, 2820302411,
   3259730800, 3345764771, 3516065817, 3600352804, 4094571909, 275423344,
   430227734, 506948616, 659060556, 883997877, 958139571, 1322822218,
   1537002063, 1747873779, 1955562222, 2024104815, 2227730452, 2361852424,
   2428436474, 2756734187, 3204031479, 3329325298]

/-- The SHA-256 initial hash value (FIPS 180-4), written in decimal. -/
def shaInitState : List Nat :=
  [1779033703, 3144134277, 1013904242, 2773480762,
   1359893119, 2600822924, 528734635, 1541459225]

/-- Working state of one SHA-256 compression. -/
structure Sha8 where
  a : Nat
  b : Nat
  c : Nat
  d : Nat
  e : Nat
  f : Nat
  g : Nat
  h : Nat

/-- One SHA-256 round. -/
def compress1 (x : Sha8) (k w : Nat) : Sha8 :=
  let s1 := rotr 6 x.e ^^^ rotr 11 x.e ^^^ rotr 25 x.e
  let ch := (x.e &&& x.f) ^^^ ((x.e ^^^ 0xffffffff) &&& x.g)
  let t1 := w32 (x.h + s1 + ch + k + w)
  let s0 := rotr 2 x.a ^^^ rotr 13 x.a ^^^ rotr 22 x.a
  let mj := (x.a &&& x.b) ^^^ (x.a &&& x.c) ^^^ (x.b &&& x.c)
  let t2 := w32 (s0 + mj)
  ⟨w32 (t1 + t2), x.a, x.b, x.c, w32 (x.d + t1), x.e, x.f, x.g⟩

/-- Next word of the SHA-256 message schedule. -/
def nextW (ws : List Nat) : Nat :=
  let i := ws.length
  w32 (schedMix1 (ws.getD (i - 2) 0) + ws.getD (i - 7) 0
    + schedMix0 (ws.getD (i - 15) 0) + ws.getD (i - 16) 0)

/-- Extend the message schedule by `n` further words. -/
def buildW : Nat → List Nat → List Nat
  | 0, ws => ws
  | n + 1, ws => buildW n (ws ++ [nextW ws])

/-- Big-endian 32-bit words from a byte list. -/
def wordsOfBytes : List Nat → List Nat
  | b0 :: b1 :: b2 :: b3 :: rest => (((b0 * 256 + b1) * 256 + b2) * 256 + b3) :: wordsOfBytes rest
  | _ => []

/-- Big-endian byte rendering of `n`, `k` bytes wide. -/
def toBytesBE (k n : Nat) : List Nat := (List.range k).reverse.map (fun i => (n >>> (8 * i)) % 256)

/-- SHA-256 compression of one 64-byte block into the running hash. -/
def shaCompress (hs block : List Nat) : List Nat :=
  let ws := buildW 48 (wordsOfBytes block)
  let x0 : Sha8 := ⟨hs.getD 0 0, hs.getD 1 0, hs.getD 2 0, hs.getD 3 0,
                    hs.getD 4 0, hs.getD 5 0, hs.getD 6 0, hs.getD 7 0⟩
  let x := (List.zip shaK ws).foldl (fun y kw => compress1 y kw.1 kw.2) x0
  [w32 (hs.getD 0 0 + x.a), w32 (hs.getD 1 0 + x.b), w32 (hs.getD 2 0 + x.c),
   w32 (hs.getD 3 0 + x.d), w32 (hs.getD 4 0 + x.e), w32 (hs.getD 5 0 + x.f),
   w32 (hs.getD 6 0 + x.g), w32 (hs.getD 7 0 + x.h)]

/-- Process `n` 64-byte blocks. -/
def processBlocks : Nat → List Nat → List Nat → List Nat
  | 0, hs, _ => hs
  | n + 1, hs, bytes => processBlocks n (shaCompress hs (bytes.take 64)) (bytes.drop 64)

/-- The SHA-256 digest (32 bytes) of a byte list. -/
def sha256 (msg : List Nat) : List Nat :=
  let padded := msg ++ 0x80 :: (List.replicate ((119 - msg.length % 64) % 64) 0
    ++ toBytesBE 8 (msg.length * 8))
  ((processBlocks (padded.length / 64) shaInitState padded).map (toBytesBE 4)).flatten

/-! ### UTF-8 encoding (model of Rust `str::as_bytes`) -/

/-- UTF-8 bytes of one scalar value. -/
def utf8Char (c : Nat) : List Nat :=
  if c < 0x80 then [c]
  else if c < 0x800 then [0xc0 ||| (c >>> 6), 0x80 ||| (c &&& 0x3f)]
  else if c < 0x10000 then
    [0xe0 ||| (c >>> 12), 0x80 ||| ((c >>> 6) &&& 0x3f), 0x80 ||| (c &&& 0x3f)]
  else
    [0xf0 ||| (c >>> 18), 0x80 ||| ((c >>> 12) &&& 0x3f),
     0x80 ||| ((c >>> 6) &&& 0x3f), 0x80 ||| (c &&& 0x3f)]

/-- UTF-8 bytes of a string. -/
def utf8 (s : String) : List Nat := (s.data.map (fun c => utf8Char c.toNat)).flatten

/-! ### Calendar arithmetic and RFC 3339 rendering (model of `chrono`)

Timestamps (`DateTime<Utc>`) are modelled as whole Unix seconds (`Int`);
sub-second precision plays no role in the claims. -/

/-- Civil date from days since the Unix epoch (proleptic Gregorian). -/
def civilFromDays (z0 : Int) : Int × Nat × Nat :=
  let z := z0 + 719468
  let era := (if 0 ≤ z then z else z - 146096) / 146097
  let doe := z - era * 146097
  let yoe := (doe - doe / 1460 + doe / 36524 - doe / 146096) / 365
  let y := yoe + era * 400
  let doy := doe - (365 * yoe + yoe / 4 - yoe / 100)
  let mp := (5 * doy + 2) / 153
  let d := doy - (153 * mp + 2) / 5 + 1
  let m := if mp < 10 then mp + 3 else mp - 9
  ((if m ≤ 2 then y + 1 else y), m.toNat, d.toNat)

/-- Days since the Unix epoch of a civil date (proleptic Gregorian). -/
def daysFromCivil (y0 : Int) (m d : Nat) : Int :=
  let y : Int := if m ≤ 2 then y0 - 1 else y0
  let era := (if 0 ≤ y then y else y - 399) / 400
  let yoe := y - era * 400
  let mp : Int := if 2 < m then (m : Int) - 3 else (m : Int) + 9
  let doy := (153 * mp + 2) / 5 + (d : Int) - 1
  let doe := yoe * 365 + yoe / 4 - yoe / 100 + doy
  era * 146097 + doe - 719468

/-- Zero-padded two-digit decimal rendering. -/
def pad2 (n : Nat) : String := if n < 10 then "0" ++ toString n else toString n

/-- Zero-padded four-digit decimal rendering. -/
def pad4 (n : Nat) : String :=
  if n < 10 then "000" ++ toString n
  else if n < 100 then "00" ++ toString n
  else if n < 1000 then "0" ++ toString n
  else toString n

/-- RFC 3339 rendering of a Unix timestamp, as produced by
`chrono::DateTime::<Utc>::to_rfc3339` (UTC offset rendered `+00:00`). -/
def to_rfc3339 (ts : Int) : String :=
  let days := Int.fdiv ts 86400
  let sod := (ts - 86400 * days).toNat
  let c := civilFromDays days
  let ys := if c.1 < 0 then "-" ++ pad4 (-c.1).toNat else pad4 c.1.toNat
  ys ++ "-" ++ pad2 c.2.1 ++ "-" ++ pad2 c.2.2 ++ "T" ++
    pad2 (sod / 3600) ++ ":" ++ pad2 (sod % 3600 / 60) ++ ":" ++ pad2 (sod % 60) ++ "+00:00"

/-! ### RFC 2822 date parsing (model of `chrono::DateTime::parse_from_rfc2822`) -/

/-- Decimal value of an ASCII digit. -/
def digitVal (c : Char) : Option Nat :=
  if '0' ≤ c ∧ c ≤ '9' then some (c.toNat - 48) else none

/-- Drop leading spaces. -/
def skipSpaces (l : List Char) : List Char := l.dropWhile (fun c => c = ' ')

/-- Read exactly `n` decimal digits. -/
def readDigits : Nat → List Char → Option (Nat × List Char)
  | 0, l => some (0, l)
  | n + 1, [] => (fun _ => none) n
  | n + 1, c :: l => do
    let d ← digitVal c
    let r ← readDigits n l
    pure (d * 10 ^ n + r.1, r.2)

/-- Read a one- or two-digit day number. -/
def readDay : List Char → Option (Nat × List Char)
  | [] => none
  | c1 :: l => do
    let d1 ← digitVal c1
    match l with
    | c2 :: l2 =>
      match digitVal c2 with
      | some d2 => pure (10 * d1 + d2, l2)
      | none => pure (d1, c2 :: l2)
    | [] => pure (d1, [])

def dayNames : List String := ["Mon", "Tue", "Wed", "Thu", "Fri", "Sat", "Sun"]

def monthNames : List String :=
  ["Jan", "Feb", "Mar", "Apr", "May", "Jun", "Jul", "Aug", "Sep", "Oct", "Nov", "Dec"]

/-- Strip an optional leading day-of-week (`Tue, `); reject an invalid name. -/
def stripDayOfWeek : List Char → Option (List Char)
  | a :: b :: c :: ',' :: rest =>
    if dayNames.contains (String.mk [a, b, c]) then some (skipSpaces rest) else none
  | l => some l

/-- Read a three-letter month name, returning the month number. -/
def readMonth : List Char → Option (Nat × List Char)
  | a :: b :: c :: rest => do
    let i ← monthNames.indexOf? (String.mk [a, b, c])
    pure (i + 1, rest)
  | _ => none

/-- Read a time-zone designator, returning its offset in seconds. -/
def readZone : List Char → Option (Int × List Char)
  | '+' :: rest => do
    let r ← readDigits 4 rest
    pure ((60 * (r.1 / 100 * 60 + r.1 % 100) : Int), r.2)
  | '-' :: rest => do
    let r ← readDigits 4 rest
    pure ((-(60 * (r.1 / 100 * 60 + r.1 % 100)) : Int), r.2)
  | 'G' :: 'M' :: 'T' :: rest => some (0, rest)
  | 'U' :: 'T' :: rest => some (0, rest)
  | _ => none

/-- Model of `chrono::DateTime::parse_from_rfc2822` followed by
`with_timezone(&Utc)`: parses `Wed, 02 Oct 2024 10:00:00 GMT` style
date-times to Unix seconds, `none` on anything malformed. -/
def parse_from_rfc2822 (s : String) : Option Int := do
  let l := skipSpaces s.data
  let l ← stripDayOfWeek l
  let (day, l) ← readDay l
  let l := skipSpaces l
  let (mon, l) ← readMonth l
  let l := skipSpaces l
  let (year, l) ← readDigits 4 l
  let l := skipSpaces l
  let (hh, l) ← readDigits 2 l
  let l ← (match l with | ':' :: r => some r | _ => none)
  let (mm, l) ← readDigits 2 l
  let l ← (match l with | ':' :: r => some r | _ => none)
  let (ss, l) ← readDigits 2 l
  let l := skipSpaces l
  let (off, l) ← readZone l
  let l := skipSpaces l
  if l = [] ∧ 1 ≤ day ∧ day ≤ 31 ∧ hh < 24 ∧ mm < 60 ∧ ss < 60 then
    pure (86400 * daysFromCivil (year : Int) mon day + 3600 * hh + 60 * mm + ss - off)
  else none

/-! ### Canonical item model (`src/rss/mod.rs`) -/

/-- Embeds `RssItem` (`src/rss/mod.rs`).  The `Uuid` identifier is the raw
16-byte value; `published_at` is Unix seconds. -/
structure RssItem where
  id : List Nat
  source : String
  title : String
  link : String
  summary : Option String
  published_at : Int
deriving DecidableEq, Repr

/-- State of a `sha2::Sha256` hasher: the bytes fed so far. -/
def Sha256.update (st bytes : List Nat) : List Nat := st ++ bytes

/-- Finalizing a `sha2::Sha256` hasher digests the accumulated bytes. -/
def Sha256.finalize (st : List Nat) : List Nat := sha256 st

/-- Embeds `generate_rss_item_id` (`src/rss/mod.rs` lines 21-30): three
`hasher.update` calls on the UTF-8 bytes of `source`, `title` and the
RFC 3339 rendering of `published_at`, then the first 16 digest bytes. -/
def generate_rss_item_id (source title : String) (published_at : Int) : List Nat :=
  let h0 : List Nat := []
  let h1 := Sha256.update h0 (utf8 source)
  let h2 := Sha256.update h1 (utf8 title)
  let h3 := Sha256.update h2 (utf8 (to_rfc3339 published_at))
  (Sha256.finalize h3).take 16

/-- Embeds `RssItem::new` (`src/rss/mod.rs` lines 32-56).  `now` is the
wall clock used by the `unwrap_or_else(Utc::now)` fallback. -/
def RssItem.new (source_name title link : String) (summary : Option String)
    (published_at : Option Int) (now : Int) : RssItem :=
  let published_at_dt := published_at.getD now
  { id := generate_rss_item_id source_name title published_at_dt
    source := source_name
    title := title
    link := link
    summary := summary
    published_at := published_at_dt }

/-! ### `strip_cdata` (`src/rss/mod.rs` lines 66-76) -/

/-- Model of Rust `char::is_whitespace` on the characters that occur here. -/
def isWs (c : Char) : Bool := c = ' ' || c = '\t' || c = '\n' || c = '\r'

/-- Model of Rust `str::trim`. -/
def trimL (l : List Char) : List Char :=
  ((l.dropWhile isWs).reverse.dropWhile isWs).reverse

/-- Model of Rust `str::starts_with` on a string pattern. -/
def startsWithL : List Char → List Char → Bool
  | [], _ => true
  | _ :: _, [] => false
  | p :: ps, c :: cs => p = c && startsWithL ps cs

/-- Model of Rust `str::ends_with` on a string pattern. -/
def endsWithL (pat l : List Char) : Bool := startsWithL pat.reverse l.reverse

/-- Fuelled worker for `trim_start_matches`: each step removes one matching
occurrence of the pattern from the front.  Fuel equal to the list length
always suffices for the nonempty patterns used here. -/
def trimStartMatchesAux (pat : List Char) : Nat → List Char → List Char
  | 0, l => l
  | n + 1, l => if startsWithL pat l then trimStartMatchesAux pat n (l.drop pat.length) else l

/-- Model of Rust `str::trim_start_matches`: removes all leading occurrences
of the pattern (repeatedly, not just once). -/
def trimStartMatchesL (pat l : List Char) : List Char :=
  trimStartMatchesAux pat l.length l

/-- Model of Rust `str::trim_end_matches`: removes all trailing occurrences
of the pattern (repeatedly, not just once). -/
def trimEndMatchesL (pat l : List Char) : List Char :=
  (trimStartMatchesAux pat.reverse l.length l.reverse).reverse

def cdataOpen : List Char := ['<', '!', '[', 'C', 'D', 'A', 'T', 'A', '[']

def cdataClose : List Char := [']', ']', '>']

/-- Embeds `strip_cdata` (`src/rss/mod.rs` lines 66-76). -/
def strip_cdata (text : String) : String :=
  let t := trimL text.data
  if startsWithL cdataOpen t && endsWithL cdataClose t then
    String.mk (trimEndMatchesL cdataClose (trimStartMatchesL cdataOpen t))
  else text

/-! ### The XML token stream (model of `quick_xml::Reader`)

A feed body is modelled as the sequence of events the `quick_xml` reader
would produce: start tags (with attributes), end tags, text runs, and a
reader error (`Err(e)` from `read_event_into`); end of list is `Eof`. -/

inductive XmlToken where
  | startTag (name : String) (attrs : List (String × String))
  | endTag (name : String)
  | text (s : String)
  | err (msg : String)
deriving DecidableEq, Repr

/-- Embeds `RssParseError` (`src/error.rs` lines 18-25). -/
inductive RssParseError where
  | Xml (msg : String)
  | InvalidDate (msg : String)
deriving DecidableEq, Repr

/-- Model of `Reader::read_text(QName(tag))` followed by the callers'
`.ok()`: consumes events up to the matching end tag and returns the
concatenated text, or `none` at end of input or on a reader error (the
erroneous event is left for the main loop to hit next). -/
def readTextAux (tag : String) (acc : String) : List XmlToken → Option String × List XmlToken
  | [] => (none, [])
  | .text s :: rest => readTextAux tag (acc ++ s) rest
  | .endTag n :: rest => if n = tag then (some acc, rest) else readTextAux tag acc rest
  | .startTag _ _ :: rest => readTextAux tag acc rest
  | .err m :: rest => (none, .err m :: rest)

/-! ### The Bloomberg dialect parser (`src/rss/bloomberg.rs`) -/

/-- Per-`<item>` accumulator and output of `BloombergRssParser::parse`. -/
structure BloombergState where
  inItem : Bool
  title : Option String
  link : Option String
  description : Option String
  creator : Option String
  pubDate : Option String
  categories : List String
  items : List RssItem

/-- The `Event::End` arm of `BloombergRssParser::parse` once the `in_item`
guard has passed: push one item if title, link and publish date are all
present, parsing the date with a fall back to "now". -/
def bloombergFinish (now : Int) (st : BloombergState) : BloombergState :=
  { st with
    inItem := false,
    items := st.items ++
      (match st.title, st.link, st.pubDate with
       | some t, some l, some pd =>
         [RssItem.new "bloomberg" t l st.description
           (some ((parse_from_rfc2822 pd).getD now)) now]
       | _, _, _ => []) }

/-- The event loop of `BloombergRssParser::parse` (`src/rss/bloomberg.rs`
lines 34-147).  Fuel only bounds recursion; the top-level entry point
supplies more fuel than there are tokens, so it never runs out. -/
def bloombergLoop (now : Int) : Nat → BloombergState → List XmlToken →
    Except RssParseError (List RssItem)
  | 0, st, _ => .ok st.items
  | _ + 1, st, [] => .ok st.items
  | fuel + 1, st, tok :: rest =>
    match tok with
    | .err m => .error (.Xml m)
    | .text _ => bloombergLoop now fuel st rest
    | .endTag n =>
      if n = "item" && st.inItem then bloombergLoop now fuel (bloombergFinish now st) rest
      else bloombergLoop now fuel st rest
    | .startTag n _ =>
      if n = "item" then
        bloombergLoop now fuel
          { st with
            inItem := true, title := none, link := none,
            description := none, creator := none, pubDate := none, categories := [] } rest
      else if n = "title" then
        if st.inItem then
          let r := readTextAux "title" "" rest
          bloombergLoop now fuel { st with title := r.1.map (fun s => strip_cdata s) } r.2
        else bloombergLoop now fuel st rest
      else if n = "link" then
        if st.inItem then
          let r := readTextAux "link" "" rest
          bloombergLoop now fuel { st with link := r.1 } r.2
        else bloombergLoop now fuel st rest
      else if n = "description" then
        if st.inItem then
          let r := readTextAux "description" "" rest
          bloombergLoop now fuel { st with description := r.1.map (fun s => strip_cdata s) } r.2
        else bloombergLoop now fuel st rest
      else if n = "creator" then
        if st.inItem then
          let r := readTextAux "creator" "" rest
          bloombergLoop now fuel { st with creator := r.1 } r.2
        else bloombergLoop now fuel st rest
      else if n = "pubDate" then
        if st.inItem then
          let r := readTextAux "pubDate" "" rest
          bloombergLoop now fuel { st with pubDate := r.1 } r.2
        else bloombergLoop now fuel st rest
      else if n = "category" then
        if st.inItem then
          let r := readTextAux "category" "" rest
          bloombergLoop now fuel { st with categories := st.categories ++ r.1.toList } r.2
        else bloombergLoop now fuel st rest
      else bloombergLoop now fuel st rest

def bloombergInit : BloombergState := ⟨false, none, none, none, none, none, [], []⟩

/-- Embeds `BloombergRssParser::parse`. -/
def bloombergParse (now : Int) (toks : List XmlToken) : Except RssParseError (List RssItem) :=
  bloombergLoop now (toks.length + 1) bloombergInit toks

/-! ### The Reuters dialect parser (`src/rss/reuters.rs`) -/

/-- Per-`<item>` accumulator and output of `ReutersRssParser::parse`. -/
structure ReutersState where
  inItem : Bool
  title : Option String
  link : Option String
  description : Option String
  creator : Option String
  pubDate : Option String
  items : List RssItem

/-- The `Event::End(item)` arm of `ReutersRssParser::parse`: unlike the
Bloomberg parser there is no `in_item` guard, and the fields are cloned,
not cleared. -/
def reutersFinish (now : Int) (st : ReutersState) : ReutersState :=
  { st with
    inItem := false,
    items := st.items ++
      (match st.title, st.link, st.pubDate with
       | some t, some l, some pd =>
         [RssItem.new "reuters" t l st.description
           (some ((parse_from_rfc2822 pd).getD now)) now]
       | _, _, _ => []) }

/-- The event loop of `ReutersRssParser::parse` (`src/rss/reuters.rs`
lines 33-125). -/
def reutersLoop (now : Int) : Nat → ReutersState → List XmlToken →
    Except RssParseError (List RssItem)
  | 0, st, _ => .ok st.items
  | _ + 1, st, [] => .ok st.items
  | fuel + 1, st, tok :: rest =>
    match tok with
    | .err m => .error (.Xml m)
    | .text _ => reutersLoop now fuel st rest
    | .endTag n =>
      if n = "item" then reutersLoop now fuel (reutersFinish now st) rest
      else reutersLoop now fuel st rest
    | .startTag n _ =>
      if n = "item" then
        reutersLoop now fuel
          { st with
            inItem := true, title := none, link := none,
            description := none, creator := none, pubDate := none } rest
      else if n = "title" then
        if st.inItem then
          let r := readTextAux "title" "" rest
          reutersLoop now fuel { st with title := r.1.map (fun s => strip_cdata s) } r.2
        else reutersLoop now fuel st rest
      else if n = "link" then
        if st.inItem then
          let r := readTextAux "link" "" rest
          reutersLoop now fuel { st with link := r.1 } r.2
        else reutersLoop now fuel st rest
      else if n = "description" then
        if st.inItem then
          let r := readTextAux "description" "" rest
          reutersLoop now fuel { st with description := r.1.map (fun s => strip_cdata s) } r.2
        else reutersLoop now fuel st rest
      else if n = "pubDate" then
        if st.inItem then
          let r := readTextAux "pubDate" "" rest
          reutersLoop now fuel { st with pubDate := r.1 } r.2
        else reutersLoop now fuel st rest
      else if n = "creator" then
        if st.inItem then
          let r := readTextAux "creator" "" rest
          reutersLoop now fuel { st with creator := r.1 } r.2
        else reutersLoop now fuel st rest
      else reutersLoop now fuel st rest

def reutersInit : ReutersState := ⟨false, none, none, none, none, none, []⟩

/-- Embeds `ReutersRssParser::parse`. -/
def reutersParse (now : Int) (toks : List XmlToken) : Except RssParseError (List RssItem) :=
  reutersLoop now (toks.length + 1) reutersInit toks

/-! ### The Coindesk dialect parser (`src/rss/coindesk.rs`) -/

/-- Per-`<item>` accumulator and output of `CoindeskRssParser::parse`;
categories carry an optional `domain` attribute and a name. -/
structure CoindeskState where
  inItem : Bool
  title : Option String
  link : Option String
  description : Option String
  pubDate : Option String
  creators : List String
  categories : List (Option String × String)
  items : List RssItem

/-- The `Event::End(item)` arm of `CoindeskRssParser::parse`: no `in_item`
guard, but `Option::take` clears title, link and publish date (and, when an
item is pushed, the description). -/
def coindeskFinish (now : Int) (st : CoindeskState) : CoindeskState :=
  match st.title, st.link, st.pubDate with
  | some t, some l, some pd =>
    { st with
      inItem := false, title := none, link := none, pubDate := none,
      description := none,
      items := st.items ++ [RssItem.new "coindesk" t l st.description
        (some ((parse_from_rfc2822 pd).getD now)) now] }
  | _, _, _ => { st with inItem := false, title := none, link := none, pubDate := none }

/-- The `for attr in e.attributes()` loop of the `category` arm: the last
`domain` attribute wins. -/
def domainOf (attrs : List (String × String)) : Option String :=
  attrs.foldl (fun acc a => if a.1 = "domain" then some a.2 else acc) none

/-- The event loop of `CoindeskRssParser::parse` (`src/rss/coindesk.rs`
lines 38-153).  The `Err` arm builds its message via
`format!("XML parsing error: {e}").into()`; the target `From` conversion
lives in the repository's error module, and following the spec's taxonomy
(an XML-structure error, distinct from a date error) it is modelled as the
`Xml` variant. -/
def coindeskLoop (now : Int) : Nat → CoindeskState → List XmlToken →
    Except RssParseError (List RssItem)
  | 0, st, _ => .ok st.items
  | _ + 1, st, [] => .ok st.items
  | fuel + 1, st, tok :: rest =>
    match tok with
    | .err m => .error (.Xml ("XML parsing error: " ++ m))
    | .text _ => coindeskLoop now fuel st rest
    | .endTag n =>
      if n = "item" then coindeskLoop now fuel (coindeskFinish now st) rest
      else coindeskLoop now fuel st rest
    | .startTag n attrs =>
      if n = "item" then
        coindeskLoop now fuel
          { st with
            inItem := true, title := none, link := none,
            description := none, pubDate := none, creators := [], categories := [] } rest
      else if n = "title" then
        if st.inItem then
          let r := readTextAux "title" "" rest
          coindeskLoop now fuel { st with title := r.1.map (fun s => strip_cdata s) } r.2
        else coindeskLoop now fuel st rest
      else if n = "link" then
        if st.inItem then
          let r := readTextAux "link" "" rest
          coindeskLoop now fuel { st with link := r.1 } r.2
        else coindeskLoop now fuel st rest
      else if n = "description" then
        if st.inItem then
          let r := readTextAux "description" "" rest
          coindeskLoop now fuel { st with description := r.1.map (fun s => strip_cdata s) } r.2
        else coindeskLoop now fuel st rest
      else if n = "pubDate" then
        if st.inItem then
          let r := readTextAux "pubDate" "" rest
          coindeskLoop now fuel { st with pubDate := r.1 } r.2
        else coindeskLoop now fuel st rest
      else if n = "creator" then
        if st.inItem then
          let r := readTextAux "creator" "" rest
          coindeskLoop now fuel { st with creators := st.creators ++ r.1.toList } r.2
        else coindeskLoop now fuel st rest
      else if n = "category" then
        if st.inItem then
          let r := readTextAux "category" "" rest
          coindeskLoop now fuel { st with categories := st.categories ++
            (r.1.map (fun txt => (domainOf attrs, strip_cdata txt))).toList } r.2
        else coindeskLoop now fuel st rest
      else coindeskLoop now fuel st rest

def coindeskInit : CoindeskState := ⟨false, none, none, none, none, [], [], []⟩

/-- Embeds `CoindeskRssParser::parse`. -/
def coindeskParse (now : Int) (toks : List XmlToken) : Except RssParseError (List RssItem) :=
  coindeskLoop now (toks.length + 1) coindeskInit toks

/-! ### Storage and the ingestion orchestrator (`src/db`, `src/ingest/mod.rs`) -/

/-- Durable storage: the rows of `warehouse.rss_items`, in insertion order. -/
abbrev Db := List RssItem

/-- Modelled from the spec: `insert_rss_item` is referenced from
`src/ingest/mod.rs` and `tests/insert_process.rs` but its definition (in the
repository's `db` module) is not under `src/`.  Per spec section 4.3 it
returns `true` iff a new row was persisted for `item.id`, and `false`
without error when a row with that identifier already exists.  Storage-level
connection failures are outside this model. -/
def insert_rss_item (db : Db) (item : RssItem) : Bool × Db :=
  if db.any (fun r => r.id = item.id) then (false, db) else (true, db ++ [item])

/-- The `Display` rendering that `Box<dyn Error>` exposes for a parse error
(`thiserror` attributes in `src/error.rs`). -/
def RssParseError.display : RssParseError → String
  | .Xml m => "XML parsing error: " ++ m
  | .InvalidDate m => "Date parsing error: " ++ m

/-- Shared shape of the seven `fetch_*` functions in `src/ingest/mod.rs`:
fetch the body over HTTP (`env`), run the dialect parser, insert every
resulting item; any fetch or parse failure is returned (the `?` operator),
inserts already performed staying durable. -/
def fetchAndStore (env : String → Except String (List XmlToken)) (now : Int) (url : String)
    (parseFn : Int → List XmlToken → Except RssParseError (List RssItem)) (db : Db) :
    Db × Option String :=
  match env url with
  | .error e => (db, some e)
  | .ok xml =>
    match parseFn now xml with
    | .error pe => (db, some pe.display)
    | .ok items => (items.foldl (fun d it => (insert_rss_item d it).2) db, none)

/-- Embeds `fetch_bloomberg_wealth` (`src/ingest/mod.rs` lines 9-21). -/
def fetch_bloomberg_wealth (env : String → Except String (List XmlToken)) (now : Int)
    (db : Db) : Db × Option String :=
  fetchAndStore env now "https://feeds.bloomberg.com/wealth/news.rss" bloombergParse db

/-- Embeds `fetch_bloomberg_economics` (`src/ingest/mod.rs` lines 23-35). -/
def fetch_bloomberg_economics (env : String → Except String (List XmlToken)) (now : Int)
    (db : Db) : Db × Option String :=
  fetchAndStore env now "https://feeds.bloomberg.com/economics/news.rss" bloombergParse db

/-- Embeds `fetch_bloomberg_markets` (`src/ingest/mod.rs` lines 37-49). -/
def fetch_bloomberg_markets (env : String → Except String (List XmlToken)) (now : Int)
    (db : Db) : Db × Option String :=
  fetchAndStore env now "https://feeds.bloomberg.com/markets/news.rss" bloombergParse db

/-- Embeds `fetch_coindesk` (`src/ingest/mod.rs` lines 51-63); the URL typo
is the source's. -/
def fetch_coindesk (env : String → Except String (List XmlToken)) (now : Int)
    (db : Db) : Db × Option String :=
  fetchAndStore env now "https://www.coindesk/com/arc/outboundfeeds/rss" coindeskParse db

/-- Embeds `fetch_reuters_financial` (`src/ingest/mod.rs` lines 65-77). -/
def fetch_reuters_financial (env : String → Except String (List XmlToken)) (now : Int)
    (db : Db) : Db × Option String :=
  fetchAndStore env now "https://ir.thomsonreuters.com/rss/news-releases.xml?items=15"
    reutersParse db

/-- Embeds `fetch_reuters_events` (`src/ingest/mod.rs` lines 79-91). -/
def fetch_reuters_events (env : String → Except String (List XmlToken)) (now : Int)
    (db : Db) : Db × Option String :=
  fetchAndStore env now "https://ir.thomsonreuters.com/rss/events.xml?items=15" reutersParse db

/-- Embeds `fetch_reuters_secfilings` (`src/ingest/mod.rs` lines 93-105). -/
def fetch_reuters_secfilings (env : String → Except String (List XmlToken)) (now : Int)
    (db : Db) : Db × Option String :=
  fetchAndStore env now "https://ir.thomsonreuters.com/rss/sec-filings.xml?items=15"
    reutersParse db

/-- The `?` sequencing of `fetch_all_and_insert`: a step runs only when no
earlier step failed. -/
def andThen (step : Db → Db × Option String) : Db × Option String → Db × Option String
  | (db, none) => step db
  | (db, some e) => (db, some e)

/-- Embeds `fetch_all_and_insert` (`src/ingest/mod.rs` lines 107-117): the
seven feeds in source order, each behind `?`. -/
def fetch_all_and_insert (env : String → Except String (List XmlToken)) (now : Int)
    (db : Db) : Db × Option String :=
  andThen (fetch_reuters_secfilings env now)
    (andThen (fetch_reuters_events env now)
      (andThen (fetch_reuters_financial env now)
        (andThen (fetch_coindesk env now)
          (andThen (fetch_bloomberg_markets env now)
            (andThen (fetch_bloomberg_economics env now)
              (fetch_bloomberg_wealth env now db))))))

/-! ### The scheduler (`src/ingest/mod.rs` lines 119-130)

The loop body is `ticker.tick().await` followed by `fetch_all_and_insert`,
whose error (if any) is only printed.  `env n` is the result of the run at
tick `n`; cancellation (the process-level termination signal, which is
external to this code) is modelled as an optional tick index after which
execution is cut off. -/

inductive SchedulerSt where
  | running (log : List String)
  | stopped (log : List String)
deriving DecidableEq, Repr

def SchedulerSt.isRunningB : SchedulerSt → Bool
  | .running _ => true
  | .stopped _ => false

def SchedulerSt.log : SchedulerSt → List String
  | .running l => l
  | .stopped l => l

/-- The loop body: on `Err(e)` the error is reported (`eprintln!`) and the
loop continues; it never breaks or returns. -/
def schedStep (res : Except String Unit) : SchedulerSt → SchedulerSt
  | .stopped l => .stopped l
  | .running l =>
    match res with
    | .ok _ => .running l
    | .error e => .running (l ++ [e])

def stopSched : SchedulerSt → SchedulerSt
  | .running l => .stopped l
  | .stopped l => .stopped l

/-- Whether the external cancellation signal has arrived by tick `n`. -/
def cancelArrived (c : Option Nat) (n : Nat) : Bool :=
  match c with
  | none => false
  | some k => decide (k ≤ n)

/-- Embeds `run_scheduler` observed for `n` ticks, with the external
cancellation signal arriving at tick `cancelAt` (if ever). -/
def run_scheduler (env : Nat → Except String Unit) (cancelAt : Option Nat) :
    Nat → SchedulerSt
  | 0 => .running []
  | n + 1 =>
    let prev := run_scheduler env cancelAt n
    if cancelArrived cancelAt n then stopSched prev else schedStep (env n) prev

/-- Whether the ingestion run of tick `n` fires. -/
def tickFiredB (env : Nat → Except String Unit) (c : Option Nat) (n : Nat) : Bool :=
  !cancelArrived c n && (run_scheduler env c n).isRunningB

/-! ### Helpers used by the claim statements -/

/-- Tokens of one optional simple element `<tag>s</tag>`. -/
def fieldToks (tag : String) : Option String → List XmlToken
  | some s => [.startTag tag [], .text s, .endTag tag]
  | none => []

/-- Tokens of one `<item>` entry with the given optional fields. -/
def entryToks (title link desc creator pubDate : Option String) : List XmlToken :=
  .startTag "item" [] ::
    (fieldToks "title" title ++ fieldToks "link" link ++ fieldToks "description" desc ++
     fieldToks "creator" creator ++ fieldToks "pubDate" pubDate ++ [.endTag "item"])

/-- Number of `<item>` start tags in a token stream. -/
def countItemStarts : List XmlToken → Nat
  | [] => 0
  | .startTag n _ :: rest => (if n = "item" then 1 else 0) + countItemStarts rest
  | _ :: rest => countItemStarts rest

/-- Titles of a parse result. -/
def itemTitles (r : Except RssParseError (List RssItem)) : Except RssParseError (List String) :=
  r.map (fun its => its.map (fun it => it.title))

/-- Publish timestamps of a parse result. -/
def itemPubs (r : Except RssParseError (List RssItem)) : Except RssParseError (List Int) :=
  r.map (fun its => its.map (fun it => it.published_at))

/-- Title/link pairs of a parse result. -/
def itemTitleLinks (r : Except RssParseError (List RssItem)) :
    Except RssParseError (List (String × String)) :=
  r.map (fun its => its.map (fun it => (it.title, it.link)))

/-- `true` when a parse error (if any) is the XML-structure variant. -/
def errIsXmlB : Except RssParseError (List RssItem) → Bool
  | .error (.Xml _) => true
  | .error (.InvalidDate _) => false
  | .ok _ => true

/-- `true` when a successful parse emits at most one item per `<item>`
start tag of the input. -/
def countOkB (r : Except RssParseError (List RssItem)) (toks : List XmlToken) : Bool :=
  match r with
  | .ok its => decide (its.length ≤ countItemStarts toks)
  | .error _ => true

/-- `true` when every item of a successful parse carries the given source
label. -/
def sourcesOkB (lbl : String) : Except RssParseError (List RssItem) → Bool
  | .ok its => its.all (fun it => it.source = lbl)
  | .error _ => true

/-! ### General helper lemmas -/

theorem str_empty_append (s : String) : "" ++ s = s := by
  cases s
  rfl

/-- `startsWithL` is prefix-taking. -/
theorem startsWithL_iff_take (p : List Char) : ∀ l, startsWithL p l = true ↔ l.take p.length = p := by
  induction p with
  | nil => intro l; simp [startsWithL]
  | cons c cs ih =>
    intro l
    cases l with
    | nil => simp [startsWithL]
    | cons x xs => simp [startsWithL, ih xs, eq_comm (a := x) (b := c), and_comm]

theorem startsWithL_self_append (p r : List Char) : startsWithL p (p ++ r) = true := by
  induction p with
  | nil => rfl
  | cons c cs ih => simp [startsWithL, ih]

/-- The guard lemma for repeated CDATA stripping: if the inner text does not
itself start with the opener, neither does the text with the closer
appended. -/
theorem startsWith_open_append_close (t : List Char)
    (h : startsWithL cdataOpen t = false) :
    startsWithL cdataOpen (t ++ cdataClose) = false := by
  cases hx : startsWithL cdataOpen (t ++ cdataClose) with
  | false => rfl
  | true =>
    exfalso
    have htake : (t ++ cdataClose).take cdataOpen.length = cdataOpen :=
      (startsWithL_iff_take _ _).mp hx
    rw [List.take_append_eq_append_take] at htake
    rcases le_or_lt cdataOpen.length t.length with hle | hlt
    · have h0 : cdataOpen.length - t.length = 0 := by omega
      rw [h0] at htake
      simp only [List.take_zero, List.append_nil] at htake
      have hh : startsWithL cdataOpen t = true := (startsWithL_iff_take _ _).mpr htake
      rw [h] at hh
      exact Bool.false_ne_true hh
    · rw [List.take_of_length_le (le_of_lt hlt)] at htake
      have hlen := congrArg List.length htake
      simp only [List.length_append, List.length_take] at hlen
      have h9 : cdataOpen.length = 9 := rfl
      have h3 : cdataClose.length = 3 := rfl
      rw [h9, h3] at hlen
      rw [h9] at hlt
      have hne2 : cdataClose.take (cdataOpen.length - t.length) ≠ [] := by
        intro hnil
        have hl0 := congrArg List.length hnil
        simp only [List.length_take, h3, List.length_nil] at hl0
        omega
      have hlast := congrArg List.getLast? htake
      rw [List.getLast?_append_of_ne_nil _ hne2] at hlast
      have hcases : cdataOpen.length - t.length = 1 ∨ cdataOpen.length - t.length = 2
          ∨ cdataOpen.length - t.length = 3 := by rw [h9]; omega
      rcases hcases with hk | hk | hk <;> rw [hk] at hlast <;> exact absurd hlast (by decide)

theorem trimStartMatchesAux_succ (pat : List Char) (n : Nat) (l : List Char) :
    trimStartMatchesAux pat (n + 1) l =
      if startsWithL pat l then trimStartMatchesAux pat n (l.drop pat.length) else l := rfl

theorem trimStartMatchesAux_not (pat : List Char) (fuel : Nat) (l : List Char)
    (h : startsWithL pat l = false) : trimStartMatchesAux pat fuel l = l := by
  cases fuel <;> simp [trimStartMatchesAux, h]

/-- A single CDATA opener is stripped from the front when the remainder does
not start with another opener. -/
theorem trimStartMatches_strip (t : List Char)
    (h : startsWithL cdataOpen (t ++ cdataClose) = false) :
    trimStartMatchesL cdataOpen (cdataOpen ++ t ++ cdataClose) = t ++ cdataClose := by
  show trimStartMatchesAux cdataOpen (cdataOpen ++ t ++ cdataClose).length
    (cdataOpen ++ t ++ cdataClose) = t ++ cdataClose
  have hfuel : (cdataOpen ++ t ++ cdataClose).length = (t.length + 11) + 1 := by
    simp only [cdataOpen, cdataClose, List.length_append, List.length_cons, List.length_nil]
    omega
  rw [hfuel, trimStartMatchesAux_succ, List.append_assoc, startsWithL_self_append,
    List.drop_left]
  show trimStartMatchesAux cdataOpen (t.length + 11) (t ++ cdataClose) = t ++ cdataClose
  exact trimStartMatchesAux_not _ _ _ h

/-- A single CDATA closer is stripped from the back when the remainder does
not end with another closer. -/
theorem trimEndMatches_strip (t : List Char)
    (h : endsWithL cdataClose t = false) :
    trimEndMatchesL cdataClose (t ++ cdataClose) = t := by
  show (trimStartMatchesAux cdataClose.reverse (t ++ cdataClose).length
    (t ++ cdataClose).reverse).reverse = t
  have hfuel : (t ++ cdataClose).length = (t.length + 2) + 1 := by
    simp only [cdataClose, List.length_append, List.length_cons, List.length_nil]
  rw [hfuel, List.reverse_append, trimStartMatchesAux_succ, startsWithL_self_append,
    List.drop_left]
  show (trimStartMatchesAux cdataClose.reverse (t.length + 2) t.reverse).reverse = t
  rw [trimStartMatchesAux_not _ _ _ h, List.reverse_reverse]

/-! ### Claim C1 -/

/-- C1: `RssItem::new(s, t, l, m, Some(p))` yields an id equal to the first
16 bytes of the SHA-256 digest of the concatenated UTF-8 bytes of `s`, `t`
and the RFC 3339 rendering of `p`; consequently any two constructions with
the same `(source, title, published_at)` share the id regardless of link,
summary, call order, process or machine (the computation is pure). -/
theorem C1_id_is_truncated_sha256 (s t l₁ l₂ : String) (m₁ m₂ : Option String)
    (p now₁ now₂ : Int) :
    (RssItem.new s t l₁ m₁ (some p) now₁).id
      = (sha256 (utf8 s ++ utf8 t ++ utf8 (to_rfc3339 p))).take 16
  ∧ (RssItem.new s t l₁ m₁ (some p) now₁).id = (RssItem.new s t l₂ m₂ (some p) now₂).id := by
  constructor
  · simp [RssItem.new, generate_rss_item_id, Sha256.update, Sha256.finalize,
      Option.getD, List.append_assoc]
  · rfl

/-! ### Claim C3 -/

/-- Rows of a database holding a given identifier. -/
def countId (db : Db) (i : List Nat) : Nat := (db.filter (fun r => r.id = i)).length

/-- C3: `insert_if_new` returns `true` iff no row with `item.id` existed
before the call, in which case exactly the new row is appended; on a
duplicate it returns `false` and leaves storage unchanged (no error); a
second insert of the same item returns `false`, and two inserts starting
from empty storage leave exactly one row with that id. -/
theorem C3_insert_if_new_idempotent (db : Db) (it : RssItem) :
    ((insert_rss_item db it).1 = decide (∀ r ∈ db, r.id ≠ it.id))
  ∧ ((insert_rss_item db it).2 = if (insert_rss_item db it).1 then db ++ [it] else db)
  ∧ ((insert_rss_item (insert_rss_item db it).2 it).1 = false)
  ∧ countId (insert_rss_item (insert_rss_item ([] : Db) it).2 it).2 it.id = 1 := by
  have key : (db.any fun r => r.id = it.id) = !(decide (∀ r ∈ db, r.id ≠ it.id)) := by
    cases hd : decide (∀ r ∈ db, r.id ≠ it.id) with
    | true =>
      have hc := of_decide_eq_true hd
      simp only [Bool.not_true]
      rw [List.any_eq_false]
      intro r hr
      simpa using hc r hr
    | false =>
      have hc := of_decide_eq_false hd
      simp only [Bool.not_false]
      rw [List.any_eq_true]
      push_neg at hc
      obtain ⟨r, hr, hid⟩ := hc
      exact ⟨r, hr, by simpa using hid⟩
  refine ⟨?_, ?_, ?_, ?_⟩
  · simp only [insert_rss_item]
    rw [key]
    cases hd : decide (∀ r ∈ db, r.id ≠ it.id) <;> simp
  · cases ha : (db.any fun r => r.id = it.id) <;> simp [insert_rss_item, ha]
  · cases ha : (db.any fun r => r.id = it.id) <;>
      simp [insert_rss_item, ha, List.any_append]
  · simp [insert_rss_item, countId]

/-! ### Claim C6 -/

/-- C6 counterexample: on `"<![CDATA[abc]]>]]>"` — whose trimmed form starts
with `<![CDATA[` and ends with `]]>` — the code removes the trailing `]]>`
twice, returning `"abc"`, not the single-wrapper removal `"abc]]>"` the
claim predicts. -/
theorem C6_counterexample_repeated_strip :
    strip_cdata "<![CDATA[abc]]>]]>" = "abc" ∧ ("abc" : String) ≠ "abc]]>" :=
  ⟨rfl, by decide⟩

/-- C6 (amended): when the trimmed input is a CDATA wrapper around a text
that neither starts with `<![CDATA[` nor ends with `]]>`, the wrapper is
removed; with nested or repeated markers at the edges, all leading openers
and trailing closers are removed, not just one (see the counterexample);
any other input — including text merely containing CDATA markers mid-string
— is returned unchanged. -/
theorem C6_strip_cdata_amended (s : String) (t : List Char) :
    (trimL s.data = cdataOpen ++ t ++ cdataClose →
      startsWithL cdataOpen t = false → endsWithL cdataClose t = false →
      strip_cdata s = String.mk t)
  ∧ ((startsWithL cdataOpen (trimL s.data) && endsWithL cdataClose (trimL s.data)) = false →
      strip_cdata s = s) := by
  constructor
  · intro htrim h1 h2
    have hopen : startsWithL cdataOpen (t ++ cdataClose) = false :=
      startsWith_open_append_close t h1
    have hcond : (startsWithL cdataOpen (trimL s.data)
        && endsWithL cdataClose (trimL s.data)) = true := by
      rw [Bool.and_eq_true]
      constructor
      · rw [htrim, List.append_assoc]
        exact startsWithL_self_append _ _
      · rw [htrim]
        simp only [endsWithL]
        rw [List.reverse_append]
        exact startsWithL_self_append _ _
    simp only [strip_cdata]
    rw [hcond, htrim, trimStartMatches_strip t hopen, trimEndMatches_strip t h2]
    rfl
  · intro hcond
    simp only [strip_cdata, hcond]
    rfl

/-- C6 witness: the amended theorem applied to the spec's own examples. -/
theorem C6_strip_cdata_witness :
    strip_cdata "<![CDATA[Hello & Co]]>" = "Hello & Co"
  ∧ strip_cdata "Hello & Co" = "Hello & Co" := by
  constructor
  · exact (C6_strip_cdata_amended "<![CDATA[Hello & Co]]>" ("Hello & Co".data)).1
      (by decide) (by decide) (by decide)
  · exact (C6_strip_cdata_amended "Hello & Co" []).2 (by decide)

/-! ### Scheduler lemmas and claim C9 -/

theorem sched_running_none (env : Nat → Except String Unit) :
    ∀ n, (run_scheduler env none n).isRunningB = true := by
  intro n
  induction n with
  | zero => rfl
  | succ k ih =>
    show (schedStep (env k) (run_scheduler env none k)).isRunningB = true
    cases hp : run_scheduler env none k with
    | running l => cases env k <;> rfl
    | stopped l =>
      rw [hp] at ih
      simp [SchedulerSt.isRunningB] at ih

theorem sched_log_none (env : Nat → Except String Unit) (n : Nat) :
    (run_scheduler env none (n + 1)).log = (run_scheduler env none n).log ++
      (match env n with | .error e => [e] | .ok _ => []) := by
  have hr := sched_running_none env n
  show (schedStep (env n) (run_scheduler env none n)).log = _
  cases hp : run_scheduler env none n with
  | running l => cases env n <;> simp [schedStep, SchedulerSt.log]
  | stopped l =>
    rw [hp] at hr
    simp [SchedulerSt.isRunningB] at hr

theorem sched_running_cancel (env : Nat → Except String Unit) (k : Nat) :
    ∀ n, (run_scheduler env (some k) n).isRunningB = decide (n ≤ k) := by
  intro n
  induction n with
  | zero => simp [run_scheduler, SchedulerSt.isRunningB]
  | succ m ih =>
    by_cases hc : k ≤ m
    · have hca : cancelArrived (some k) m = true := by simp [cancelArrived, hc]
      have hnk : ¬ (m + 1 ≤ k) := by omega
      simp only [run_scheduler, hca, if_true]
      cases run_scheduler env (some k) m <;>
        simp [stopSched, SchedulerSt.isRunningB, hnk]
    · have hca : cancelArrived (some k) m = false := by simp [cancelArrived, hc]
      have hmk : m ≤ k := by omega
      have hrun : (run_scheduler env (some k) m).isRunningB = true := by
        rw [ih]
        simp [hmk]
      have hyes : m + 1 ≤ k := by omega
      simp only [run_scheduler, hca]
      cases hp : run_scheduler env (some k) m with
      | running l => cases env m <;> simp [schedStep, SchedulerSt.isRunningB, hyes]
      | stopped l =>
        rw [hp] at hrun
        simp [SchedulerSt.isRunningB] at hrun

/-- C9: a failing ingestion run is reported (appended to the error log) but
never terminates the scheduler — after any number of ticks without
cancellation it is still running and the next tick fires; once the external
cancellation signal has arrived the scheduler is stopped, and a tick fires
iff it precedes the cancellation. -/
theorem C9_scheduler_survives_errors (env : Nat → Except String Unit) (n k : Nat) :
    (run_scheduler env none n).isRunningB = true
  ∧ tickFiredB env none n = true
  ∧ (run_scheduler env none (n + 1)).log = (run_scheduler env none n).log ++
      (match env n with | .error e => [e] | .ok _ => [])
  ∧ (run_scheduler env (some k) (k + n + 1)).isRunningB = false
  ∧ tickFiredB env (some k) n = decide (n < k) := by
  refine ⟨sched_running_none env n, ?_, sched_log_none env n, ?_, ?_⟩
  · simp [tickFiredB, cancelArrived, sched_running_none env n]
  · rw [sched_running_cancel]
    simp only [decide_eq_false_iff_not]
    omega
  · rw [tickFiredB, sched_running_cancel]
    by_cases h : n < k
    · have h1 : ¬ (k ≤ n) := by omega
      have h2 : n ≤ k := by omega
      simp [cancelArrived, h, h1, h2]
    · have h1 : k ≤ n := by omega
      simp [cancelArrived, h, h1]

/-! ### Claim C8 -/

theorem bloombergLoop_errIsXml (now : Int) :
    ∀ fuel st toks, errIsXmlB (bloombergLoop now fuel st toks) = true := by
  intro fuel
  induction fuel with
  | zero => intro st toks; rfl
  | succ n ih =>
    intro st toks
    cases toks with
    | nil => rfl
    | cons tok rest =>
      cases tok with
      | err m => rfl
      | text s => exact ih st rest
      | endTag nm =>
        simp only [bloombergLoop]
        split_ifs <;> exact ih _ _
      | startTag nm attrs =>
        simp only [bloombergLoop]
        split_ifs <;> exact ih _ _

theorem reutersLoop_errIsXml (now : Int) :
    ∀ fuel st toks, errIsXmlB (reutersLoop now fuel st toks) = true := by
  intro fuel
  induction fuel with
  | zero => intro st toks; rfl
  | succ n ih =>
    intro st toks
    cases toks with
    | nil => rfl
    | cons tok rest =>
      cases tok with
      | err m => rfl
      | text s => exact ih st rest
      | endTag nm =>
        simp only [reutersLoop]
        split_ifs <;> exact ih _ _
      | startTag nm attrs =>
        simp only [reutersLoop]
        split_ifs <;> exact ih _ _

theorem coindeskLoop_errIsXml (now : Int) :
    ∀ fuel st toks, errIsXmlB (coindeskLoop now fuel st toks) = true := by
  intro fuel
  induction fuel with
  | zero => intro st toks; rfl
  | succ n ih =>
    intro st toks
    cases toks with
    | nil => rfl
    | cons tok rest =>
      cases tok with
      | err m => rfl
      | text s => exact ih st rest
      | endTag nm =>
        simp only [coindeskLoop]
        split_ifs <;> exact ih _ _
      | startTag nm attrs =>
        simp only [coindeskLoop]
        split_ifs <;> exact ih _ _

/-- C8: a reader error makes every dialect parser abort with the
XML-structure variant of the parse error (never the date variant), and
since the return type carries either an error or items, no partial item
sequence escapes; hitting the malformed event as the next event aborts
immediately with exactly that message. -/
theorem C8_xml_error_aborts (now : Int) (toks : List XmlToken) (m : String)
    (rest : List XmlToken) :
    errIsXmlB (bloombergParse now toks) = true
  ∧ errIsXmlB (reutersParse now toks) = true
  ∧ errIsXmlB (coindeskParse now toks) = true
  ∧ bloombergParse now (.err m :: rest) = .error (.Xml m)
  ∧ reutersParse now (.err m :: rest) = .error (.Xml m)
  ∧ coindeskParse now (.err m :: rest) = .error (.Xml ("XML parsing error: " ++ m)) :=
  ⟨bloombergLoop_errIsXml now _ _ _, reutersLoop_errIsXml now _ _ _,
   coindeskLoop_errIsXml now _ _ _, rfl, rfl, rfl⟩

/-! ### Claim C5 -/

/-- C5: field-level defects in an entry are absorbed and never become a
parse error — an entry missing its title, link or publish-date element
yields no item and no error (`Ok` with nothing appended), while an entry
whose three required fields are present but whose publish-date string is
not valid RFC 2822 still yields an item whose `published_at` is the wall
clock at parse time. -/
theorem C5_field_defects_absorbed (now : Int) (t l d pd : String) :
    bloombergParse now (entryToks none (some l) none none (some pd)) = .ok []
  ∧ bloombergParse now (entryToks (some t) none none none (some pd)) = .ok []
  ∧ bloombergParse now (entryToks (some t) (some l) (some d) none none) = .ok []
  ∧ (parse_from_rfc2822 pd = none →
      itemPubs (bloombergParse now (entryToks (some t) (some l) (some d) none (some pd)))
        = .ok [now]) := by
  refine ⟨rfl, rfl, rfl, ?_⟩
  intro h
  have base : itemPubs (bloombergParse now (entryToks (some t) (some l) (some d) none (some pd)))
      = .ok [(parse_from_rfc2822 pd).getD now] := rfl
  rw [base, h]
  rfl

/-- C5 witness: a concrete entry with the unparsable date `"not a date"`. -/
theorem C5_field_defects_witness :
    parse_from_rfc2822 "not a date" = none
  ∧ itemPubs (bloombergParse 0
      (entryToks (some "T") (some "L") (some "D") none (some "not a date"))) = .ok [0] :=
  ⟨by decide, (C5_field_defects_absorbed 0 "T" "L" "D" "not a date").2.2.2 (by decide)⟩

/-! ### Claim C7 -/

/-- A single entry whose `<title>` element is present but empty. -/
def emptyTitleToks : List XmlToken :=
  [.startTag "item" [], .startTag "title" [], .endTag "title", .startTag "link" [], .text "x",
   .endTag "link", .startTag "pubDate" [], .text "Wed, 02 Oct 2024 10:00:00 GMT",
   .endTag "pubDate", .endTag "item"]

/-- C7 counterexample: an entry whose title element is present but empty is
not dropped — the Bloomberg parser emits an item whose title is the empty
string (empty after trimming as well), so parser outputs are not guaranteed
non-empty titles. -/
theorem C7_counterexample_empty_title :
    itemTitles (bloombergParse 0 emptyTitleToks) = .ok [""] ∧ trimL ("".data) = [] :=
  ⟨rfl, rfl⟩

/-- C7 (amended): the parsers apply no non-emptiness filter at all — an
entry whose title, link and publish-date elements are present always yields
exactly one item carrying the captured text verbatim (title CDATA-stripped,
link as read), even when the title or link text is empty or whitespace;
only an absent element drops the entry. -/
theorem C7_amended_no_emptiness_filter (now : Int) (t l pd : String) :
    itemTitleLinks (bloombergParse now (entryToks (some t) (some l) none none (some pd)))
      = .ok [(strip_cdata t, l)]
  ∧ itemTitleLinks (reutersParse now (entryToks (some t) (some l) none none (some pd)))
      = .ok [(strip_cdata t, l)] :=
  ⟨rfl, rfl⟩

/-! ### Claim C2 -/

/-- An orchestrator environment where the second configured feed (Bloomberg
economics) fails in transport and the others respond. -/
def envSecondFails (e : String) (toks1 toks3 : List XmlToken) :
    String → Except String (List XmlToken) := fun url =>
  if url = "https://feeds.bloomberg.com/wealth/news.rss" then .ok toks1
  else if url = "https://feeds.bloomberg.com/economics/news.rss" then .error e
  else if url = "https://feeds.bloomberg.com/markets/news.rss" then .ok toks3
  else .ok []

/-- C2 counterexample: with the second feed failing in transport, the run
stops at the failure — the third feed's item (`"A3"`) is never written
(storage holds only `"A1"`), and the returned error is the raw transport
error, naming no feed — contradicting the claimed best-effort contract. -/
theorem C2_counterexample_fail_fast :
    (fetch_all_and_insert (envSecondFails "connection timed out"
        (entryToks (some "A1") (some "L1") none none (some "Wed, 02 Oct 2024 10:00:00 GMT"))
        (entryToks (some "A3") (some "L3") none none (some "Wed, 02 Oct 2024 11:00:00 GMT")))
      0 []).2 = some "connection timed out"
  ∧ (fetch_all_and_insert (envSecondFails "connection timed out"
        (entryToks (some "A1") (some "L1") none none (some "Wed, 02 Oct 2024 10:00:00 GMT"))
        (entryToks (some "A3") (some "L3") none none (some "Wed, 02 Oct 2024 11:00:00 GMT")))
      0 []).1.map (fun it => it.title) = ["A1"] :=
  ⟨rfl, rfl⟩

/-- C2 (amended): `fetch_all_and_insert` is fail-fast — when the second
feed fails, items of the first feed are durably written, the run aborts
before fetching the third feed (its items are absent), and the returned
error is exactly the failing feed's own error, with no aggregation and no
source names. -/
theorem C2_amended_fail_fast (e t1 l1 pd1 t3 l3 pd3 : String) (now : Int) :
    (fetch_all_and_insert (envSecondFails e (entryToks (some t1) (some l1) none none (some pd1))
        (entryToks (some t3) (some l3) none none (some pd3))) now []).2 = some e
  ∧ (fetch_all_and_insert (envSecondFails e (entryToks (some t1) (some l1) none none (some pd1))
        (entryToks (some t3) (some l3) none none (some pd3))) now []).1.map (fun it => it.title)
      = [strip_cdata t1] :=
  ⟨rfl, rfl⟩

/-! ### Claim C4 -/

theorem bloombergLoop_sources (now : Int) :
    ∀ fuel st toks, st.items.all (fun it => it.source = "bloomberg") = true →
      sourcesOkB "bloomberg" (bloombergLoop now fuel st toks) = true := by
  intro fuel
  induction fuel with
  | zero => intro st toks h; simpa [bloombergLoop, sourcesOkB] using h
  | succ n ih =>
    intro st toks h
    cases toks with
    | nil => simpa [bloombergLoop, sourcesOkB] using h
    | cons tok rest =>
      cases tok with
      | err m => rfl
      | text s => exact ih st rest h
      | endTag nm =>
        simp only [bloombergLoop]
        split_ifs with hc
        · apply ih
          simp only [bloombergFinish, List.all_append]
          rw [h]
          cases st.title <;> cases st.link <;> cases st.pubDate <;>
            simp [RssItem.new]
        · exact ih _ _ h
      | startTag nm attrs =>
        simp only [bloombergLoop]
        split_ifs <;> exact ih _ _ h

theorem reutersLoop_sources (now : Int) :
    ∀ fuel st toks, st.items.all (fun it => it.source = "reuters") = true →
      sourcesOkB "reuters" (reutersLoop now fuel st toks) = true := by
  intro fuel
  induction fuel with
  | zero => intro st toks h; simpa [reutersLoop, sourcesOkB] using h
  | succ n ih =>
    intro st toks h
    cases toks with
    | nil => simpa [reutersLoop, sourcesOkB] using h
    | cons tok rest =>
      cases tok with
      | err m => rfl
      | text s => exact ih st rest h
      | endTag nm =>
        simp only [reutersLoop]
        split_ifs with hc
        · apply ih
          simp only [reutersFinish, List.all_append]
          rw [h]
          cases st.title <;> cases st.link <;> cases st.pubDate <;>
            simp [RssItem.new]
        · exact ih _ _ h
      | startTag nm attrs =>
        simp only [reutersLoop]
        split_ifs <;> exact ih _ _ h

theorem coindeskLoop_sources (now : Int) :
    ∀ fuel st toks, st.items.all (fun it => it.source = "coindesk") = true →
      sourcesOkB "coindesk" (coindeskLoop now fuel st toks) = true := by
  intro fuel
  induction fuel with
  | zero => intro st toks h; simpa [coindeskLoop, sourcesOkB] using h
  | succ n ih =>
    intro st toks h
    cases toks with
    | nil => simpa [coindeskLoop, sourcesOkB] using h
    | cons tok rest =>
      cases tok with
      | err m => rfl
      | text s => exact ih st rest h
      | endTag nm =>
        simp only [coindeskLoop]
        split_ifs with hc
        · apply ih
          cases ht : st.title <;> cases hl : st.link <;> cases hp : st.pubDate <;>
            simp [coindeskFinish, ht, hl, hp, List.all_append, h, RssItem.new]
        · exact ih _ _ h
      | startTag nm attrs =>
        simp only [coindeskLoop]
        split_ifs <;> exact ih _ _ h

theorem bloombergParse_sources (now : Int) (toks : List XmlToken) :
    sourcesOkB "bloomberg" (bloombergParse now toks) = true :=
  bloombergLoop_sources now _ _ _ rfl

theorem reutersParse_sources (now : Int) (toks : List XmlToken) :
    sourcesOkB "reuters" (reutersParse now toks) = true :=
  reutersLoop_sources now _ _ _ rfl

theorem coindeskParse_sources (now : Int) (toks : List XmlToken) :
    sourcesOkB "coindesk" (coindeskParse now toks) = true :=
  coindeskLoop_sources now _ _ _ rfl

/-- The three dialect labels the parsers can stamp on an item. -/
def dialectSourceB (it : RssItem) : Bool :=
  it.source = "bloomberg" || it.source = "coindesk" || it.source = "reuters"

theorem insert_preserves_all (P : RssItem → Bool) (db : Db) (it : RssItem)
    (hdb : db.all P = true) (hit : P it = true) :
    ((insert_rss_item db it).2).all P = true := by
  cases hc : (db.any fun r => r.id = it.id) <;>
    simp [insert_rss_item, hc, List.all_append, hdb, hit]

theorem foldl_insert_preserves_all (P : RssItem → Bool) :
    ∀ (items : List RssItem) (db : Db), db.all P = true → items.all P = true →
      ((items.foldl (fun d it => (insert_rss_item d it).2) db)).all P = true := by
  intro items
  induction items with
  | nil => intro db h _; simpa using h
  | cons it its ih =>
    intro db hdb hall
    simp only [List.all_cons, Bool.and_eq_true] at hall
    exact ih _ (insert_preserves_all P db it hdb hall.1) hall.2

theorem fetchAndStore_preserves_all (env : String → Except String (List XmlToken)) (now : Int)
    (url : String) (parseFn : Int → List XmlToken → Except RssParseError (List RssItem))
    (db : Db) (P : RssItem → Bool) (hdb : db.all P = true)
    (hp : ∀ toks its, parseFn now toks = .ok its → its.all P = true) :
    ((fetchAndStore env now url parseFn db).1).all P = true := by
  rcases henv : env url with e | xml
  · have heq : fetchAndStore env now url parseFn db = (db, some e) := by
      simp [fetchAndStore, henv]
    rw [heq]
    exact hdb
  · rcases hx : parseFn now xml with pe | items
    · have heq : fetchAndStore env now url parseFn db = (db, some pe.display) := by
        simp [fetchAndStore, henv, hx]
      rw [heq]
      exact hdb
    · have heq : fetchAndStore env now url parseFn db =
          (items.foldl (fun d it => (insert_rss_item d it).2) db, none) := by
        simp [fetchAndStore, henv, hx]
      rw [heq]
      exact foldl_insert_preserves_all P items db hdb (hp xml items hx)

theorem andThen_preserves_all (P : RssItem → Bool) (step : Db → Db × Option String)
    (pr : Db × Option String) (hpr : pr.1.all P = true)
    (hstep : ∀ db, db.all P = true → ((step db).1).all P = true) :
    ((andThen step pr).1).all P = true := by
  obtain ⟨db, r⟩ := pr
  cases r with
  | none => exact hstep db hpr
  | some e => simpa using hpr

theorem sourcesOk_lift (lbl : String) (P : RssItem → Bool) (hl : ∀ it, it.source = lbl → P it = true)
    (r : Except RssParseError (List RssItem)) (its : List RssItem)
    (hr : r = .ok its) (hs : sourcesOkB lbl r = true) : its.all P = true := by
  subst hr
  simp only [sourcesOkB, List.all_eq_true] at hs ⊢
  intro it hit
  have := hs it hit
  exact hl it (by simpa using this)

set_option maxRecDepth 100000 in
/-- C4 counterexample: with both the `bloomberg_wealth` and the
`bloomberg_markets` feeds delivering one well-formed entry each, the two
persisted items carry the identical source `"bloomberg"` — the dialect's
fixed label, not distinct configured feed names — because no orchestrator
override exists. -/
theorem C4_counterexample_source_is_dialect_label :
    (fetch_all_and_insert (fun url =>
        if url = "https://feeds.bloomberg.com/wealth/news.rss" then
          .ok (entryToks (some "Wealth story") (some "https://a") none none
            (some "Wed, 02 Oct 2024 10:00:00 GMT"))
        else if url = "https://feeds.bloomberg.com/markets/news.rss" then
          .ok (entryToks (some "Markets story") (some "https://b") none none
            (some "Wed, 02 Oct 2024 11:00:00 GMT"))
        else .ok []) 0 []).1.map (fun it => it.source) = ["bloomberg", "bloomberg"]
  ∧ ("bloomberg" : String) ≠ "bloomberg_wealth"
  ∧ ("bloomberg" : String) ≠ "bloomberg_markets" := by
  refine ⟨by decide, by decide, by decide⟩

/-- C4 (amended): the per-dialect source label assigned at parse time is
what gets persisted — every item a dialect parser emits carries that
dialect's fixed label (`"bloomberg"`, `"reuters"`, `"coindesk"`), the
orchestrator performs no override, and hence every item the orchestrator
stores carries one of the three dialect labels; feeds sharing a dialect
produce identical, not distinct, source values. -/
theorem C4_amended_dialect_label_persisted (now : Int) (toks : List XmlToken)
    (env : String → Except String (List XmlToken)) :
    sourcesOkB "bloomberg" (bloombergParse now toks) = true
  ∧ sourcesOkB "reuters" (reutersParse now toks) = true
  ∧ sourcesOkB "coindesk" (coindeskParse now toks) = true
  ∧ ((fetch_all_and_insert env now []).1).all dialectSourceB = true := by
  refine ⟨bloombergParse_sources now toks, reutersParse_sources now toks,
    coindeskParse_sources now toks, ?_⟩
  have hb : ∀ toks₀ its, bloombergParse now toks₀ = .ok its → its.all dialectSourceB = true := by
    intro toks₀ its hx
    refine sourcesOk_lift "bloomberg" dialectSourceB ?_ _ its hx (bloombergParse_sources now toks₀)
    intro it hsrc
    simp [dialectSourceB, hsrc]
  have hr : ∀ toks₀ its, reutersParse now toks₀ = .ok its → its.all dialectSourceB = true := by
    intro toks₀ its hx
    refine sourcesOk_lift "reuters" dialectSourceB ?_ _ its hx (reutersParse_sources now toks₀)
    intro it hsrc
    simp [dialectSourceB, hsrc]
  have hco : ∀ toks₀ its, coindeskParse now toks₀ = .ok its → its.all dialectSourceB = true := by
    intro toks₀ its hx
    refine sourcesOk_lift "coindesk" dialectSourceB ?_ _ its hx (coindeskParse_sources now toks₀)
    intro it hsrc
    simp [dialectSourceB, hsrc]
  have hbStep : ∀ url (db : Db), db.all dialectSourceB = true →
      ((fetchAndStore env now url bloombergParse db).1).all dialectSourceB = true :=
    fun url db hdb => fetchAndStore_preserves_all env now url bloombergParse db _ hdb hb
  have hrStep : ∀ url (db : Db), db.all dialectSourceB = true →
      ((fetchAndStore env now url reutersParse db).1).all dialectSourceB = true :=
    fun url db hdb => fetchAndStore_preserves_all env now url reutersParse db _ hdb hr
  have hcStep : ∀ url (db : Db), db.all dialectSourceB = true →
      ((fetchAndStore env now url coindeskParse db).1).all dialectSourceB = true :=
    fun url db hdb => fetchAndStore_preserves_all env now url coindeskParse db _ hdb hco
  simp only [fetch_all_and_insert, fetch_bloomberg_wealth, fetch_bloomberg_economics,
    fetch_bloomberg_markets, fetch_coindesk, fetch_reuters_financial, fetch_reuters_events,
    fetch_reuters_secfilings]
  apply andThen_preserves_all _ _ _ ?_ (fun db h => hrStep _ db h)
  apply andThen_preserves_all _ _ _ ?_ (fun db h => hrStep _ db h)
  apply andThen_preserves_all _ _ _ ?_ (fun db h => hrStep _ db h)
  apply andThen_preserves_all _ _ _ ?_ (fun db h => hcStep _ db h)
  apply andThen_preserves_all _ _ _ ?_ (fun db h => hbStep _ db h)
  apply andThen_preserves_all _ _ _ ?_ (fun db h => hbStep _ db h)
  exact hbStep _ [] rfl

/-! ### Claim C10 -/

theorem readTextAux_countStarts (tag : String) :
    ∀ (l : List XmlToken) (acc : String),
      countItemStarts (readTextAux tag acc l).2 ≤ countItemStarts l := by
  intro l
  induction l with
  | nil => intro acc; simp [readTextAux, countItemStarts]
  | cons tok rest ih =>
    intro acc
    cases tok with
    | text s => simpa [readTextAux, countItemStarts] using ih (acc ++ s)
    | endTag n =>
      simp only [readTextAux]
      split_ifs with hn
      · simp [countItemStarts]
      · simpa [countItemStarts] using ih acc
    | startTag n attrs =>
      simp only [readTextAux]
      have h1 := ih acc
      simp only [countItemStarts]
      split_ifs <;> omega
    | err m => simp [readTextAux, countItemStarts]

theorem bloombergLoop_count (now : Int) :
    ∀ fuel st toks its, bloombergLoop now fuel st toks = .ok its →
      its.length ≤ st.items.length + countItemStarts toks +
        (if st.inItem then 1 else 0) := by
  intro fuel
  induction fuel with
  | zero =>
    intro st toks its h
    simp only [bloombergLoop, Except.ok.injEq] at h
    subst h
    omega
  | succ n ih =>
    intro st toks its h
    cases toks with
    | nil =>
      simp only [bloombergLoop, Except.ok.injEq] at h
      subst h
      omega
    | cons tok rest =>
      cases tok with
      | err m => simp [bloombergLoop] at h
      | text s =>
        have hh := ih st rest its h
        simp only [countItemStarts]
        exact hh
      | endTag nm =>
        simp only [bloombergLoop] at h
        split_ifs at h with hc
        · have hh := ih _ rest its h
          have hin : st.inItem = true := (Bool.and_eq_true _ _ ▸ hc).2
          have hflag : (if (bloombergFinish now st).inItem then 1 else 0) = 0 := rfl
          rw [hflag] at hh
          have hfin_le : (bloombergFinish now st).items.length ≤ st.items.length + 1 := by
            simp only [bloombergFinish, List.length_append]
            cases st.title <;> cases st.link <;> cases st.pubDate <;> simp
          have hgflag : (if st.inItem then 1 else 0) = 1 := by
            rw [hin]
            rfl
          rw [hgflag]
          simp only [countItemStarts]
          omega
        · have hh := ih st rest its h
          simp only [countItemStarts]
          exact hh
      | startTag nm attrs =>
        simp only [bloombergLoop] at h
        split_ifs at h <;>
          (have hh := ih _ _ _ h
           have hA := readTextAux_countStarts "title" rest ""
           have hB := readTextAux_countStarts "link" rest ""
           have hC := readTextAux_countStarts "description" rest ""
           have hD := readTextAux_countStarts "creator" rest ""
           have hE := readTextAux_countStarts "pubDate" rest ""
           have hF := readTextAux_countStarts "category" rest ""
           simp only [countItemStarts]
           try simp [*] at hh ⊢
           try omega)

/-- Potential extra item a Coindesk parser state can still emit at the next
`</item>` without a further `<item>`: the state is "armed" when inside an
item or when the three required fields are all captured. -/
def cdFlag (st : CoindeskState) : Nat :=
  if st.inItem || (st.title.isSome && st.link.isSome && st.pubDate.isSome) then 1 else 0

theorem coindeskLoop_count (now : Int) :
    ∀ fuel st toks its, coindeskLoop now fuel st toks = .ok its →
      its.length ≤ st.items.length + countItemStarts toks + cdFlag st := by
  intro fuel
  induction fuel with
  | zero =>
    intro st toks its h
    simp only [coindeskLoop, Except.ok.injEq] at h
    subst h
    omega
  | succ n ih =>
    intro st toks its h
    cases toks with
    | nil =>
      simp only [coindeskLoop, Except.ok.injEq] at h
      subst h
      omega
    | cons tok rest =>
      cases tok with
      | err m => simp [coindeskLoop] at h
      | text s =>
        have hh := ih st rest its h
        simp only [countItemStarts]
        exact hh
      | endTag nm =>
        simp only [coindeskLoop] at h
        split_ifs at h with hc
        · have hh := ih _ rest its h
          simp only [countItemStarts]
          cases ht : st.title <;> cases hl : st.link <;> cases hp : st.pubDate <;>
            (try simp [coindeskFinish, cdFlag, ht, hl, hp] at hh ⊢) <;> try omega
        · have hh := ih st rest its h
          simp only [countItemStarts]
          exact hh
      | startTag nm attrs =>
        simp only [coindeskLoop] at h
        split_ifs at h <;>
          (have hh := ih _ _ _ h
           have hA := readTextAux_countStarts "title" rest ""
           have hB := readTextAux_countStarts "link" rest ""
           have hC := readTextAux_countStarts "description" rest ""
           have hD := readTextAux_countStarts "creator" rest ""
           have hE := readTextAux_countStarts "pubDate" rest ""
           have hF := readTextAux_countStarts "category" rest ""
           simp only [countItemStarts]
           try simp [cdFlag, *] at hh ⊢
           try omega)

/-- One well-formed entry followed by a stray duplicate `</item>`. -/
def strayEndToks : List XmlToken :=
  entryToks (some "T1") (some "L1") none none (some "Wed, 02 Oct 2024 10:00:00 GMT")
    ++ [.endTag "item"]

/-- C10 counterexample: on one `<item>` start tag followed by a stray
second `</item>`, the Reuters parser — whose `End` arm has no `in_item`
guard and clones rather than clears the captured fields — emits the entry's
item twice; Bloomberg and Coindesk emit it once. -/
theorem C10_counterexample_reuters_duplicates :
    countItemStarts strayEndToks = 1
  ∧ itemTitles (reutersParse 0 strayEndToks) = .ok ["T1", "T1"]
  ∧ itemTitles (bloombergParse 0 strayEndToks) = .ok ["T1"]
  ∧ itemTitles (coindeskParse 0 strayEndToks) = .ok ["T1"] :=
  ⟨rfl, rfl, rfl, rfl⟩

/-- C10 (amended): the Bloomberg parser (via its `in_item` guard) and the
Coindesk parser (via `Option::take` clearing the fields) emit at most one
item per `<item>` start tag, so stray repeated `</item>` tags never
duplicate items there; the Reuters parser lacks both protections and does
duplicate (see the counterexample). -/
theorem C10_amended_at_most_one_item_per_start (now : Int) (toks : List XmlToken) :
    countOkB (bloombergParse now toks) toks = true
  ∧ countOkB (coindeskParse now toks) toks = true := by
  constructor
  · cases hp : bloombergParse now toks with
    | error e => rfl
    | ok its =>
      simp only [countOkB, decide_eq_true_eq]
      have hb := bloombergLoop_count now _ _ _ _ hp
      simpa [bloombergInit] using hb
  · cases hp : coindeskParse now toks with
    | error e => rfl
    | ok its =>
      simp only [countOkB, decide_eq_true_eq]
      have hb := coindeskLoop_count now _ _ _ _ hp
      simpa [coindeskInit, cdFlag] using hb

end RavenNews
